import Mathlib

/-!
Verification of the CrawlPrime planner (`src/crawl_prime/planner.py`) and
orchestrator lifecycle (`src/crawl_prime/pipeline.py`).

Strings are embedded as `List Char`.  Python's `re` operations used by the
planner (`_URL_RE.search`, `_TRAILING_PUNCT_RE.sub`) are shallowly embedded as
their denotations over character lists; fallible Python code (which may raise
`ValueError`) is embedded with `Option`.
-/

set_option maxHeartbeats 1000000

/-! ## Decimal digit strings

Machinery for Python's decimal formatting (`f"step_{k}"`) and parsing
(`int(...)`), both used by the planner's `_bump` helper. -/

/-- Value of a decimal digit character, `none` on a non-digit.  Models the
per-character part of Python's `int()` parsing. -/
def digitVal (c : Char) : Option Nat :=
  if c.isDigit then some (c.toNat - 48) else none

/-- Accumulating decimal parse over a character list. -/
def parseDigitsAux : List Char → Nat → Option Nat
  | [], acc => some acc
  | c :: cs, acc =>
    match digitVal c with
    | some d => parseDigitsAux cs (acc * 10 + d)
    | none => none

/-- Parse a non-empty all-digit string; `none` (Python: `ValueError`) otherwise.
Models Python `int()` on the unsigned strings produced by step ids. -/
def parseNat (l : List Char) : Option Nat :=
  if l.isEmpty then none else parseDigitsAux l 0

/-- Models Python `int()` including a possible leading minus sign. -/
def parseInt (l : List Char) : Option Int :=
  if l.head? = some '-' then (parseNat l.tail).map (fun n => -(n : Int))
  else (parseNat l).map (fun n => (n : Int))

/-- Fuel-driven most-significant-first decimal rendering of a positive number.
Structural recursion on the fuel keeps the definition kernel-computable. -/
def natToCharsAux : Nat → Nat → List Char
  | 0, _ => []
  | _ + 1, 0 => []
  | fuel + 1, n + 1 =>
    natToCharsAux fuel ((n + 1) / 10) ++ [Nat.digitChar ((n + 1) % 10)]

/-- Canonical decimal rendering of a natural number, as produced by Python's
string formatting of a non-negative `int`. -/
def natToChars (n : Nat) : List Char :=
  if n = 0 then ['0'] else natToCharsAux n n

/-- Canonical decimal rendering of an integer (Python `str` of an `int`). -/
def intToChars (i : Int) : List Char :=
  if i < 0 then '-' :: natToChars i.natAbs else natToChars i.toNat

/-- The step id string minted from counter value `n`: `f"step_{n}"`. -/
def stepIdStr (n : Nat) : List Char :=
  "step_".data ++ natToChars n

/-! ### Round-trip lemmas for decimal strings -/

theorem natToCharsAux_eq_digits :
    ∀ fuel n, n ≤ fuel →
      natToCharsAux fuel n = (Nat.digits 10 n).reverse.map Nat.digitChar := by
  intro fuel
  induction fuel with
  | zero =>
    intro n hn
    interval_cases n
    simp [natToCharsAux]
  | succ fuel ih =>
    intro n hn
    match n with
    | 0 => simp [natToCharsAux]
    | m + 1 =>
      have hdiv : (m + 1) / 10 ≤ fuel := by
        have h1 : (m + 1) / 10 < m + 1 := Nat.div_lt_self (Nat.succ_pos m) (by omega)
        omega
      rw [natToCharsAux, ih _ hdiv,
        Nat.digits_def' (b := 10) (by omega) (Nat.succ_pos m)]
      simp

theorem natToChars_eq_digits (n : Nat) (hn : n ≠ 0) :
    natToChars n = (Nat.digits 10 n).reverse.map Nat.digitChar := by
  rw [natToChars, if_neg hn, natToCharsAux_eq_digits n n le_rfl]

theorem natToChars_mem (n : Nat) :
    ∀ c ∈ natToChars n, ∃ d, d < 10 ∧ c = Nat.digitChar d := by
  intro c hc
  by_cases hn : n = 0
  · subst hn
    simp only [natToChars, if_pos rfl, List.mem_singleton] at hc
    exact ⟨0, by omega, by simpa using hc⟩
  · rw [natToChars_eq_digits n hn] at hc
    rcases List.mem_map.mp hc with ⟨d, hd, rfl⟩
    exact ⟨d, Nat.digits_lt_base (by omega) (List.mem_reverse.mp hd), rfl⟩

theorem digitChar_props (d : Nat) (hd : d < 10) :
    digitVal (Nat.digitChar d) = some d ∧
      Nat.digitChar d ≠ '_' ∧ Nat.digitChar d ≠ '-' := by
  interval_cases d <;> exact ⟨by decide, by decide, by decide⟩

theorem parseDigitsAux_append (xs ys : List Char) :
    ∀ acc, parseDigitsAux (xs ++ ys) acc =
      (parseDigitsAux xs acc).bind (fun a => parseDigitsAux ys a) := by
  induction xs with
  | nil => intro acc; simp [parseDigitsAux]
  | cons c cs ih =>
    intro acc
    rw [List.cons_append, parseDigitsAux, parseDigitsAux]
    match digitVal c with
    | some d => exact ih (acc * 10 + d)
    | none => rfl

theorem parseDigitsAux_revdigits (L : List Nat) (hL : ∀ d ∈ L, d < 10) :
    ∀ acc, parseDigitsAux (L.reverse.map Nat.digitChar) acc =
      some (Nat.ofDigits 10 L + acc * 10 ^ L.length) := by
  induction L with
  | nil => intro acc; simp [parseDigitsAux, Nat.ofDigits_nil]
  | cons d L ih =>
    intro acc
    have hd : d < 10 := hL d (List.mem_cons_self d L)
    have hL' : ∀ e ∈ L, e < 10 := fun e he => hL e (List.mem_cons_of_mem d he)
    rw [List.reverse_cons, List.map_append, parseDigitsAux_append, ih hL' acc]
    simp only [List.map_cons, List.map_nil, parseDigitsAux,
      (digitChar_props d hd).1, Nat.ofDigits_cons, Option.some_bind,
      List.length_cons]
    congr 1
    ring

theorem parseNat_natToChars (n : Nat) : parseNat (natToChars n) = some n := by
  by_cases hn : n = 0
  · subst hn; decide
  · have hne : Nat.digits 10 n ≠ [] := Nat.digits_ne_nil_iff_ne_zero.mpr hn
    rw [natToChars_eq_digits n hn, parseNat]
    rw [if_neg (by simpa [List.isEmpty_iff] using fun h => hne (by
      cases hdig : Nat.digits 10 n with
      | nil => rfl
      | cons a l => rw [hdig] at h; simp at h))]
    rw [parseDigitsAux_revdigits _ (fun d hd => Nat.digits_lt_base (by omega) hd) 0]
    simp [Nat.ofDigits_digits]

theorem natToChars_head_ne_dash (n : Nat) :
    (natToChars n).head? ≠ some '-' := by
  intro h
  have hmem : '-' ∈ natToChars n :=
    List.mem_of_mem_head? (Option.mem_def.mpr h)
  rcases natToChars_mem n '-' hmem with ⟨d, hd, hc⟩
  exact (digitChar_props d hd).2.2 hc.symm

theorem parseInt_natToChars (n : Nat) : parseInt (natToChars n) = some (n : Int) := by
  rw [parseInt, if_neg (natToChars_head_ne_dash n), parseNat_natToChars n]
  rfl

theorem natToChars_inj : Function.Injective natToChars := by
  intro a b hab
  have := parseNat_natToChars a
  rw [hab, parseNat_natToChars b] at this
  exact (Option.some_inj.mp this).symm

/-! ## Planner embedding (`src/crawl_prime/planner.py`)

`_URL_RE = re.compile(r'https?://\S+')` and
`_TRAILING_PUNCT_RE = re.compile(r'[.,;:!?)\]\'"<>]+$')` are embedded by their
denotations; `prepend_web_ingestion_step` is translated statement by
statement. -/

/-- Python `\s` for the ASCII range (space, tab, newline, carriage return,
vertical tab, form feed).  The planner's inputs are queries; the regex class
`\S` is its complement. -/
def isPySpace (c : Char) : Bool :=
  c = ' ' || c = '\t' || c = '\n' || c = '\r' || c = Char.ofNat 11 || c = Char.ofNat 12

/-- Denotation of matching `https?://\S+` anchored at the start of `l`:
the literal scheme (the optional `s` tried greedily first, as the regex
engine does), then a non-empty maximal run of non-space characters.
Note that when `l` starts with `https://` but no body follows, backtracking
into the `http://` branch cannot succeed either (`l` then has `s` where that
branch needs `:`), so returning `none` outright is faithful. -/
def matchURLAt (l : List Char) : Option (List Char) :=
  if "https://".data.isPrefixOf l then
    let body := (l.drop 8).takeWhile (fun c => !isPySpace c)
    if body.isEmpty then none else some ("https://".data ++ body)
  else if "http://".data.isPrefixOf l then
    let body := (l.drop 7).takeWhile (fun c => !isPySpace c)
    if body.isEmpty then none else some ("http://".data ++ body)
  else none

/-- Denotation of `_URL_RE.search(query)`: the match at the leftmost position
where the pattern matches, scanning left to right. -/
def findURL : List Char → Option (List Char)
  | [] => none
  | c :: cs =>
    match matchURLAt (c :: cs) with
    | some m => some m
    | none => findURL cs

/-- The character class of `_TRAILING_PUNCT_RE`: `[.,;:!?)\]'"<>]`.
(`Char.ofNat 39` is the apostrophe, `Char.ofNat 34` the double quote.) -/
def trailingPunctChars : List Char :=
  ['.', ',', ';', ':', '!', '?', ')', ']', Char.ofNat 39, Char.ofNat 34, '<', '>']

def isTrailingPunct (c : Char) : Bool := trailingPunctChars.contains c

/-- Denotation of `_TRAILING_PUNCT_RE.sub("", url)`: remove the maximal run of
trailing-punctuation characters anchored at the right end. -/
def stripTrailingPunct (s : List Char) : List Char :=
  (s.reverse.dropWhile isTrailingPunct).reverse

/-- `contextprime`'s `StepType` members referenced by the planner, plus
`WebStepType.WEB_INGESTION`.  In the source the latter lives in a separate
`Enum`, so it is equal to no `StepType` member; distinct constructors model
that.  (`StepType` is external to this repository; only `RETRIEVAL` is
compared against by the planner.) -/
inductive StepType where
  | INGESTION
  | RETRIEVAL
  | SYNTHESIS
  | WEB_INGESTION
deriving DecidableEq

inductive ExecutionMode where
  | SEQUENTIAL
  | PARALLEL
deriving DecidableEq

/-- `contextprime.agents.planning_agent.PlanStep` (external dataclass), with
the fields the planner reads or writes.  The scheduling-metadata fields are
only ever copied through by the planner, so their payload types are modelled
with simple inhabited types and the external dataclass defaults are modelled
as arbitrary fixed defaults (used only for the freshly built web step, whose
scheduling metadata no claim constrains). -/
structure PlanStep where
  step_id : List Char
  step_type : StepType
  description : List Char
  parameters : List (List Char × List Char)
  dependencies : List (List Char)
  execution_mode : ExecutionMode
  estimated_time_ms : Nat := 0
  estimated_cost : Nat := 0
  priority : Nat := 0
  required : Bool := true
  metadata : List (List Char × List Char) := []
deriving DecidableEq

/-- `step_id.split('_')[-1]`: the segment after the last underscore (the whole
string when there is no underscore). -/
def afterLastUnderscore (l : List Char) : List Char :=
  l.foldl (fun acc c => if c = '_' then [] else acc ++ [c]) []

/-- The planner's `_bump`: `f"step_{int(step_id.split('_')[-1]) + 1}"`.
`int()` raising `ValueError` on a non-numeric suffix is modelled by `none`. -/
def bump (step_id : List Char) : Option (List Char) :=
  (parseInt (afterLastUnderscore step_id)).map
    (fun i => "step_".data ++ intToChars (i + 1))

/-- The list comprehension `[_bump(d) for d in step.dependencies]`. -/
def bumpDeps : List (List Char) → Option (List (List Char))
  | [] => some []
  | d :: ds =>
    match bump d, bumpDeps ds with
    | some d', some ds' => some (d' :: ds')
    | _, _ => none

/-- One iteration of the renumbering loop: bump the id, and either rewire a
previously-root RETRIEVAL step onto the web step or remap its dependencies;
all other fields are copied through. -/
def renumberStep (web_step_id : List Char) (step : PlanStep) : Option PlanStep :=
  match bump step.step_id,
      (if step.step_type = StepType.RETRIEVAL ∧ step.dependencies = [] then
        some [web_step_id]
      else
        bumpDeps step.dependencies) with
  | some new_id, some deps =>
    some { step with step_id := new_id, dependencies := deps }
  | _, _ => none

/-- The renumbering loop accumulating `renumbered`. -/
def renumberSteps (web_step_id : List Char) : List PlanStep → Option (List PlanStep)
  | [] => some []
  | s :: rest =>
    match renumberStep web_step_id s, renumberSteps web_step_id rest with
    | some t, some ts => some (t :: ts)
    | _, _ => none

/-- `prepend_web_ingestion_step(query, steps, step_counter_start)`.
Returns `none` exactly when the Python function raises (malformed numeric
suffix in `_bump`); otherwise `some (steps', web_step_id?)`. -/
def prepend_web_ingestion_step (query : List Char) (steps : List PlanStep)
    (step_counter_start : Nat) : Option (List PlanStep × Option (List Char)) :=
  match findURL query with
  | none => some (steps, none)
  | some raw =>
    let url := stripTrailingPunct raw
    let web_step_id := stepIdStr step_counter_start
    let web_step : PlanStep :=
      { step_id := web_step_id
        step_type := StepType.WEB_INGESTION
        description := "Ingest web content from ".data ++ url
        parameters := [("url".data, url)]
        dependencies := []
        execution_mode := ExecutionMode.SEQUENTIAL }
    (renumberSteps web_step_id steps).map
      (fun renumbered => (web_step :: renumbered, some web_step_id))

/-! ### `bump` on canonical step ids -/

theorem foldl_segment_no_underscore (l : List Char) (hl : ∀ c ∈ l, c ≠ '_') :
    ∀ acc, l.foldl (fun acc c => if c = '_' then [] else acc ++ [c]) acc = acc ++ l := by
  induction l with
  | nil => intro acc; simp
  | cons c cs ih =>
    intro acc
    have hc : c ≠ '_' := hl c (List.mem_cons_self c cs)
    rw [List.foldl_cons, if_neg hc,
      ih (fun x hx => hl x (List.mem_cons_of_mem c hx))]
    simp

theorem afterLastUnderscore_stepIdStr (n : Nat) :
    afterLastUnderscore (stepIdStr n) = natToChars n := by
  have hdig : ∀ c ∈ natToChars n, c ≠ '_' := by
    intro c hc
    rcases natToChars_mem n c hc with ⟨d, hd, rfl⟩
    exact (digitChar_props d hd).2.1
  rw [stepIdStr, afterLastUnderscore, List.foldl_append]
  rw [show List.foldl (fun acc c => if c = '_' then [] else acc ++ [c]) []
      "step_".data = [] from rfl]
  rw [foldl_segment_no_underscore _ hdig []]
  simp

theorem bump_stepIdStr (k : Nat) : bump (stepIdStr k) = some (stepIdStr (k + 1)) := by
  rw [bump, afterLastUnderscore_stepIdStr, parseInt_natToChars, Option.map_some']
  have h1 : (k : Int) + 1 = ((k + 1 : Nat) : Int) := by push_cast; ring
  rw [h1, intToChars, if_neg (by omega), Int.toNat_natCast, stepIdStr]

theorem stepIdStr_inj : Function.Injective stepIdStr := by
  intro a b hab
  have h : natToChars a = natToChars b := by
    have h1 := afterLastUnderscore_stepIdStr a
    rw [hab, afterLastUnderscore_stepIdStr b] at h1
    exact h1.symm
  exact natToChars_inj h

/-! ### Structure of the renumbering loop -/

theorem forall₂_exists_left {α β : Type} {R : α → β → Prop} :
    ∀ {l₁ : List α} {l₂ : List β}, List.Forall₂ R l₁ l₂ →
      ∀ a ∈ l₁, ∃ b ∈ l₂, R a b := by
  intro l₁ l₂ h
  induction h with
  | nil => intro a ha; exact absurd ha (List.not_mem_nil a)
  | cons hr _ ih =>
    intro a ha
    rcases List.mem_cons.mp ha with rfl | ha'
    · exact ⟨_, List.mem_cons_self _ _, hr⟩
    · rcases ih a ha' with ⟨b, hb, hab⟩
      exact ⟨b, List.mem_cons_of_mem _ hb, hab⟩

theorem forall₂_exists_right {α β : Type} {R : α → β → Prop} :
    ∀ {l₁ : List α} {l₂ : List β}, List.Forall₂ R l₁ l₂ →
      ∀ b ∈ l₂, ∃ a ∈ l₁, R a b := by
  intro l₁ l₂ h
  induction h with
  | nil => intro b hb; exact absurd hb (List.not_mem_nil b)
  | cons hr _ ih =>
    intro b hb
    rcases List.mem_cons.mp hb with rfl | hb'
    · exact ⟨_, List.mem_cons_self _ _, hr⟩
    · rcases ih b hb' with ⟨a, ha, hab⟩
      exact ⟨a, List.mem_cons_of_mem _ ha, hab⟩

/-- The dependency remap relation: the +1 relabeling on canonical ids. -/
def BumpRel (d d' : List Char) : Prop :=
  ∀ k, d = stepIdStr k → d' = stepIdStr (k + 1)

theorem bumpDeps_spec (ds : List (List Char)) (hds : ∀ d ∈ ds, ∃ k, d = stepIdStr k) :
    ∃ ds', bumpDeps ds = some ds' ∧ List.Forall₂ BumpRel ds ds' := by
  induction ds with
  | nil => exact ⟨[], rfl, List.Forall₂.nil⟩
  | cons d ds ih =>
    rcases hds d (List.mem_cons_self d ds) with ⟨k, rfl⟩
    rcases ih (fun e he => hds e (List.mem_cons_of_mem _ he)) with ⟨ds', hds', hrel⟩
    refine ⟨stepIdStr (k + 1) :: ds', ?_, ?_⟩
    · rw [bumpDeps, bump_stepIdStr, hds']
    · exact List.Forall₂.cons
        (fun k' hk' => by rw [stepIdStr_inj hk']) hrel

/-- How one renumbered step relates to its source step: id bumped by one,
previously-root RETRIEVAL steps rewired onto the web step, all other
dependency lists remapped pointwise, every other field copied unchanged. -/
def RenumberRel (w : List Char) (s t : PlanStep) : Prop :=
  (∀ k, s.step_id = stepIdStr k → t.step_id = stepIdStr (k + 1)) ∧
  (s.step_type = StepType.RETRIEVAL ∧ s.dependencies = [] → t.dependencies = [w]) ∧
  (¬(s.step_type = StepType.RETRIEVAL ∧ s.dependencies = []) →
    List.Forall₂ BumpRel s.dependencies t.dependencies) ∧
  t.step_type = s.step_type ∧ t.description = s.description ∧
  t.parameters = s.parameters ∧ t.execution_mode = s.execution_mode ∧
  t.estimated_time_ms = s.estimated_time_ms ∧
  t.estimated_cost = s.estimated_cost ∧ t.priority = s.priority ∧
  t.required = s.required ∧ t.metadata = s.metadata

theorem renumberStep_spec (w : List Char) (s : PlanStep)
    (hid : ∃ k, s.step_id = stepIdStr k)
    (hdeps : ∀ d ∈ s.dependencies, ∃ k, d = stepIdStr k) :
    ∃ t, renumberStep w s = some t ∧ RenumberRel w s t := by
  rcases hid with ⟨k, hk⟩
  by_cases htrig : s.step_type = StepType.RETRIEVAL ∧ s.dependencies = []
  · refine ⟨{ s with step_id := stepIdStr (k + 1), dependencies := [w] }, ?_, ?_⟩
    · rw [renumberStep, hk, bump_stepIdStr, if_pos htrig]
    · exact ⟨fun k' hk' => by rw [hk] at hk'; rw [stepIdStr_inj hk'],
        fun _ => rfl, fun h => absurd htrig h,
        rfl, rfl, rfl, rfl, rfl, rfl, rfl, rfl, rfl⟩
  · rcases bumpDeps_spec s.dependencies hdeps with ⟨ds', hds', hrel⟩
    refine ⟨{ s with step_id := stepIdStr (k + 1), dependencies := ds' }, ?_, ?_⟩
    · rw [renumberStep, hk, bump_stepIdStr, if_neg htrig, hds']
    · exact ⟨fun k' hk' => by rw [hk] at hk'; rw [stepIdStr_inj hk'],
        fun h => absurd h htrig, fun _ => hrel,
        rfl, rfl, rfl, rfl, rfl, rfl, rfl, rfl, rfl⟩

theorem renumberSteps_spec (w : List Char) (steps : List PlanStep)
    (hids : ∀ s ∈ steps, ∃ k, s.step_id = stepIdStr k)
    (hdeps : ∀ s ∈ steps, ∀ d ∈ s.dependencies, ∃ k, d = stepIdStr k) :
    ∃ ts, renumberSteps w steps = some ts ∧
      List.Forall₂ (RenumberRel w) steps ts := by
  induction steps with
  | nil => exact ⟨[], rfl, List.Forall₂.nil⟩
  | cons s rest ih =>
    rcases renumberStep_spec w s (hids s (List.mem_cons_self s rest))
        (hdeps s (List.mem_cons_self s rest)) with ⟨t, ht, hrel⟩
    rcases ih (fun x hx => hids x (List.mem_cons_of_mem s hx))
        (fun x hx => hdeps x (List.mem_cons_of_mem s hx)) with ⟨ts, hts, hrels⟩
    refine ⟨t :: ts, ?_, List.Forall₂.cons hrel hrels⟩
    rw [renumberSteps, ht, hts]

/-- The freshly synthesized WEB_INGESTION step for counter value `n` and
trimmed URL `url`, exactly as built by the source. -/
def webStepOf (n : Nat) (url : List Char) : PlanStep :=
  { step_id := stepIdStr n
    step_type := StepType.WEB_INGESTION
    description := "Ingest web content from ".data ++ url
    parameters := [("url".data, url)]
    dependencies := []
    execution_mode := ExecutionMode.SEQUENTIAL }

theorem prepend_spec (query : List Char) (steps : List PlanStep) (n : Nat)
    (m : List Char) (hfind : findURL query = some m)
    (hids : ∀ s ∈ steps, ∃ k, s.step_id = stepIdStr k)
    (hdeps : ∀ s ∈ steps, ∀ d ∈ s.dependencies, ∃ k, d = stepIdStr k) :
    ∃ ts, prepend_web_ingestion_step query steps n =
        some (webStepOf n (stripTrailingPunct m) :: ts, some (stepIdStr n)) ∧
      List.Forall₂ (RenumberRel (stepIdStr n)) steps ts := by
  rcases renumberSteps_spec (stepIdStr n) steps hids hdeps with ⟨ts, hts, hrel⟩
  refine ⟨ts, ?_, hrel⟩
  rw [prepend_web_ingestion_step, hfind]
  simp only [hts, Option.map_some']
  rfl

/-! ## Orchestrator embedding (`src/crawl_prime/pipeline.py`)

`CrawlPrimePipeline.__init__` and `CrawlPrimePipeline.close` are stateful code
whose external collaborators (`Neo4jManager`, `QdrantManager`, the sub-pipeline
constructors, each handle's `close()`) live outside this repository and reach
remote backends.  They are embedded with an explicit failure oracle: each
external call either returns or raises, and the orchestrator's own control flow
(`try/except` placement, assignment order, the close sequence) is translated
statement by statement.  The retrieval fusion weights are Python floats used
only for copying and a strict-positivity test, so they are modelled as `ℚ`.
The in-process wrapper constructions (`DocumentIngestionPipeline`,
`WebIngestionPipeline`, `HybridRetriever`, `AgenticPipeline`) and the storage
directory `mkdir` perform no remote call and are modelled as non-failing. -/

/-- The remote-backend constructor calls made during `__init__`, in source
order: `Neo4jManager` call 0 is the retrieval-side one, call 1 the one handed
to `GraphIngestionManager`; `QdrantManager` call 0 is handed to
`DocumentIngestionPipeline`, call 1 is `self._retrieval_qdrant`. -/
inductive CtorCall where
  | neo4jManager (i : Nat)
  | graphQueryInterface
  | graphIngestionManager
  | qdrantManager (i : Nat)
deriving DecidableEq

/-- Backend handles whose construction opens a remote connection and which
therefore must eventually be closed. -/
inductive BackendHandle where
  | neo4jManager (i : Nat)
  | qdrantManager (i : Nat)
deriving DecidableEq

/-- Configuration slice of `__init__` that the modelled code reads (source
defaults: `vector_weight=0.6`, `graph_weight=0.3`, `lexical_weight=0.1`). -/
structure PipelineConfig where
  vector_weight : ℚ
  graph_weight : ℚ
  lexical_weight : ℚ
deriving DecidableEq

/-- The orchestrator's fields after a successful `__init__`.  Handle fields
hold the index of the constructor call that produced them. -/
structure PipelineState where
  neo4j : Option Nat
  graph_queries : Bool
  graph_ingestor : Option Nat
  storage_qdrant : Nat
  retrieval_qdrant : Nat
  retriever_vector_weight : ℚ
  retriever_graph_weight : ℚ
  lexical_enabled : Bool
  lexical_weight : ℚ
deriving DecidableEq

/-- Result of the `try`-guarded Neo4j block of `__init__`. -/
structure GraphBlockResult where
  neo4j : Option Nat
  graph_queries : Bool
  graph_ingestor : Option Nat
  eff_graph_weight : ℚ
  constructed : List BackendHandle
deriving DecidableEq

/-- The `try: ... except Exception` block of `__init__` lines 113-130: the
fields start out `None` and `_graph_weight = 0.0`; each statement of the block
runs in order, and the first raising call aborts the rest of the block while
keeping every assignment already made (the `except` arm only logs).
`constructed` records the remote connections opened so far. -/
def graphBlock (graph_weight : ℚ) (fails : CtorCall → Bool) : GraphBlockResult :=
  if fails (CtorCall.neo4jManager 0) then
    { neo4j := none, graph_queries := false, graph_ingestor := none,
      eff_graph_weight := 0, constructed := [] }
  else if fails CtorCall.graphQueryInterface then
    { neo4j := some 0, graph_queries := false, graph_ingestor := none,
      eff_graph_weight := 0, constructed := [BackendHandle.neo4jManager 0] }
  else if fails (CtorCall.neo4jManager 1) then
    { neo4j := some 0, graph_queries := true, graph_ingestor := none,
      eff_graph_weight := 0, constructed := [BackendHandle.neo4jManager 0] }
  else if fails CtorCall.graphIngestionManager then
    { neo4j := some 0, graph_queries := true, graph_ingestor := none,
      eff_graph_weight := 0,
      constructed := [BackendHandle.neo4jManager 0, BackendHandle.neo4jManager 1] }
  else
    { neo4j := some 0, graph_queries := true, graph_ingestor := some 1,
      eff_graph_weight := graph_weight,
      constructed := [BackendHandle.neo4jManager 0, BackendHandle.neo4jManager 1] }

/-- `CrawlPrimePipeline.__init__`.  A raising `QdrantManager` call is not
guarded by any `try` in the source, so the exception propagates to the caller;
`Except.error` models that propagation and carries the backend handles that
had already been constructed at that point and that the source does not close
before propagating (they are left open). -/
def initPipeline (cfg : PipelineConfig) (fails : CtorCall → Bool) :
    Except (List BackendHandle) PipelineState :=
  let g := graphBlock cfg.graph_weight fails
  if fails (CtorCall.qdrantManager 0) then
    Except.error g.constructed
  else if fails (CtorCall.qdrantManager 1) then
    Except.error (g.constructed ++ [BackendHandle.qdrantManager 0])
  else
    Except.ok
      { neo4j := g.neo4j
        graph_queries := g.graph_queries
        graph_ingestor := g.graph_ingestor
        storage_qdrant := 0
        retrieval_qdrant := 1
        retriever_vector_weight := cfg.vector_weight
        retriever_graph_weight := g.eff_graph_weight
        lexical_enabled := decide (0 < cfg.lexical_weight)
        lexical_weight := if 0 < cfg.lexical_weight then cfg.lexical_weight else 0 }

/-- The close calls `CrawlPrimePipeline.close()` can issue, one per owned
handle, in source order. -/
inductive CloseCall where
  | storage
  | retrievalQdrant
  | neo4jRetrieval
  | neo4jIngestion
deriving DecidableEq

/-- One `handle.close()` call: the handle observes the call (it is appended
to the log) and then either returns or raises, per the oracle. -/
def closeHandle (fails : CloseCall → Bool) (c : CloseCall) (log : List CloseCall) :
    Except (List CloseCall) (List CloseCall) :=
  if fails c then Except.error (log ++ [c]) else Except.ok (log ++ [c])

/-- `try: ... except Exception: pass` around one close call: a raise is
swallowed and execution continues with the log either way. -/
def swallowClose (r : Except (List CloseCall) (List CloseCall)) : List CloseCall :=
  match r with
  | Except.ok l => l
  | Except.error l => l

/-- `CrawlPrimePipeline.close()` translated guard by guard; returns the log of
close calls that reached the handles.  That the result is a plain log rather
than an `Except` reflects that every individual close sits inside its own
`try/except Exception: pass`.  The source's `close()` assigns to no field, so
the orchestrator state is unchanged by calling it; the `None` checks inside the
loops become the two presence tests. -/
def closePipeline (fails : CloseCall → Bool) (st : PipelineState) : List CloseCall :=
  let log := swallowClose (closeHandle fails CloseCall.storage [])
  let log := swallowClose (closeHandle fails CloseCall.retrievalQdrant log)
  let log := if st.neo4j.isSome then
    swallowClose (closeHandle fails CloseCall.neo4jRetrieval log) else log
  if st.graph_ingestor.isSome then
    swallowClose (closeHandle fails CloseCall.neo4jIngestion log) else log

/-- The canonical close order of `close()`: ingestion sub-pipeline, retrieval
Qdrant, retrieval-side Neo4j, ingestion-side Neo4j, present handles only. -/
def expectedCloseOrder (st : PipelineState) : List CloseCall :=
  [CloseCall.storage, CloseCall.retrievalQdrant]
    ++ (if st.neo4j.isSome then [CloseCall.neo4jRetrieval] else [])
    ++ (if st.graph_ingestor.isSome then [CloseCall.neo4jIngestion] else [])

theorem closePipeline_eq_expected (fails : CloseCall → Bool) (st : PipelineState) :
    closePipeline fails st = expectedCloseOrder st := by
  rw [closePipeline, expectedCloseOrder]
  by_cases h1 : st.neo4j.isSome <;> by_cases h2 : st.graph_ingestor.isSome <;>
    by_cases h3 : fails CloseCall.storage <;>
    by_cases h4 : fails CloseCall.retrievalQdrant <;>
    by_cases h5 : fails CloseCall.neo4jRetrieval <;>
    by_cases h6 : fails CloseCall.neo4jIngestion <;>
    simp [h1, h2, h3, h4, h5, h6, closeHandle, swallowClose]

/-! ## Claims about URL detection and trimming (C6, C7, C10) -/

theorem findURL_eq_none_of_no_match (query : List Char)
    (h : ∀ t ∈ query.tails, matchURLAt t = none) : findURL query = none := by
  induction query with
  | nil => rfl
  | cons c cs ih =>
    rw [findURL, h (c :: cs) (by rw [List.tails_cons]; exact List.mem_cons_self _ _)]
    exact ih (fun t ht => h t (by rw [List.tails_cons]; exact List.mem_cons_of_mem _ ht))

/-- C6: for every plan `P`, counter `n` and query containing no substring
matched by the URL pattern (no suffix of the query has a match of
`https?://\S+` at its start), `prepend_web_ingestion_step` returns the input
steps unchanged together with the `None` sentinel — the identity case, not an
error. -/
theorem C6_no_url_is_identity (query : List Char) (steps : List PlanStep) (n : Nat)
    (hnourl : ∀ t ∈ query.tails, matchURLAt t = none) :
    prepend_web_ingestion_step query steps n = some (steps, none) := by
  rw [prepend_web_ingestion_step, findURL_eq_none_of_no_match query hnourl]

theorem C6_witness :
    (∀ t ∈ "what is the capital of France?".data.tails, matchURLAt t = none) ∧
      prepend_web_ingestion_step "what is the capital of France?".data [] 3
        = some ([], none) :=
  ⟨by decide, C6_no_url_is_identity "what is the capital of France?".data [] 3 (by decide)⟩

theorem matchURLAt_eq_none_of_no_scheme (t : List Char)
    (h1 : "http://".data.isPrefixOf t = false)
    (h2 : "https://".data.isPrefixOf t = false) : matchURLAt t = none := by
  rw [matchURLAt, h2, h1]
  rfl

/-- C10: URL detection accepts only the literal schemes `http://` and
`https://`.  For every query in which neither literal scheme occurs (no suffix
of the query starts with `http://` or `https://` — in particular queries whose
URL-like substrings use any other scheme, such as `ftp://example.com/file`),
the function returns the input steps unchanged with the `None` sentinel,
exactly as in the no-URL case. -/
theorem C10_only_http_schemes (query : List Char) (steps : List PlanStep) (n : Nat)
    (hscheme : ∀ t ∈ query.tails,
      "http://".data.isPrefixOf t = false ∧ "https://".data.isPrefixOf t = false) :
    prepend_web_ingestion_step query steps n = some (steps, none) := by
  rw [prepend_web_ingestion_step, findURL_eq_none_of_no_match query
    (fun t ht => matchURLAt_eq_none_of_no_scheme t (hscheme t ht).1 (hscheme t ht).2)]

theorem C10_witness :
    (∀ t ∈ "download ftp://example.com/file now".data.tails,
      "http://".data.isPrefixOf t = false ∧ "https://".data.isPrefixOf t = false) ∧
      prepend_web_ingestion_step "download ftp://example.com/file now".data [] 0
        = some ([], none) :=
  ⟨by decide,
    C10_only_http_schemes "download ftp://example.com/file now".data [] 0 (by decide)⟩

theorem dropWhile_head?_not (p : Char → Bool) :
    ∀ (l : List Char) (c : Char), (l.dropWhile p).head? = some c → p c = false := by
  intro l
  induction l with
  | nil => intro c hc; simp [List.dropWhile] at hc
  | cons a l ih =>
    intro c hc
    rw [List.dropWhile_cons] at hc
    by_cases ha : p a
    · rw [if_pos ha] at hc
      exact ih c hc
    · rw [if_neg ha] at hc
      simp only [List.head?_cons, Option.some_inj] at hc
      rw [← hc]
      exact Bool.not_eq_true (p a) ▸ eq_false_of_ne_true ha

/-- C7: trailing-punctuation trimming strips, from the right end only, exactly
a maximal run of characters from the fixed set `. , ; : ! ? ) ] ' " < >`: the
result is a prefix of the input (so no mid-string character is altered), every
removed character belongs to the set, and the result either is empty or does
not end in a set character.  Concretely, the query
`"see https://example.com/path."` yields the detected URL
`https://example.com/path`, and `"visit http://a.com/x(y)."` yields
`http://a.com/x(y`. -/
theorem C7_trailing_punct_trim :
    (∀ s : List Char, ∃ dropped,
      s = stripTrailingPunct s ++ dropped ∧
      (∀ c ∈ dropped, isTrailingPunct c = true) ∧
      (∀ c, (stripTrailingPunct s).getLast? = some c → isTrailingPunct c = false)) ∧
    (findURL "see https://example.com/path.".data).map stripTrailingPunct
      = some "https://example.com/path".data ∧
    (findURL "visit http://a.com/x(y).".data).map stripTrailingPunct
      = some "http://a.com/x(y".data := by
  refine ⟨?_, by decide, by decide⟩
  intro s
  refine ⟨(s.reverse.takeWhile isTrailingPunct).reverse, ?_, ?_, ?_⟩
  · rw [stripTrailingPunct, ← List.reverse_append,
      List.takeWhile_append_dropWhile, List.reverse_reverse]
  · intro c hc
    exact List.mem_takeWhile_imp (List.mem_reverse.mp hc)
  · intro c hc
    rw [stripTrailingPunct, List.getLast?_reverse] at hc
    exact dropWhile_head?_not isTrailingPunct s.reverse c hc

/-! ## Claims about the rewrite structure (C1, C5) -/

/-- The list of step ids of a plan. -/
def planIds (plan : List PlanStep) : List (List Char) :=
  plan.map PlanStep.step_id

/-- `a` depends on `b` in `plan`: some step with id `a` lists `b`. -/
def dependsOn (plan : List PlanStep) (a b : List Char) : Prop :=
  ∃ s ∈ plan, s.step_id = a ∧ b ∈ s.dependencies

/-- The dependency relation of `plan` has no (directed) cycle. -/
def Acyclic (plan : List PlanStep) : Prop :=
  ∀ a, ¬ Relation.TransGen (dependsOn plan) a a

/-- C1: for every query containing a URL (the search finds a match `m`) and
every input whose step ids and dependency references are canonical
`step_<integer>` ids, the result is `some`: one new WEB_INGESTION step with id
`step_<counterStart>`, empty dependency list, SEQUENTIAL mode and parameters
`{"url": <trimmed URL>}` comes first, followed by the renumbered input steps
in their original order, together with the new step's id; every RETRIEVAL step
whose dependency list was empty now depends exactly on the new step's id, and
every other dependency list is remapped pointwise (same length, each reference
bumped by one), never augmented. -/
theorem C1_prepend_structure (query : List Char) (steps : List PlanStep)
    (n : Nat) (m : List Char) (hfind : findURL query = some m)
    (hids : ∀ s ∈ steps, ∃ k, s.step_id = stepIdStr k)
    (hdeps : ∀ s ∈ steps, ∀ d ∈ s.dependencies, ∃ k, d = stepIdStr k) :
    ∃ w ts, prepend_web_ingestion_step query steps n
        = some (w :: ts, some (stepIdStr n)) ∧
      w.step_id = stepIdStr n ∧
      w.step_type = StepType.WEB_INGESTION ∧
      w.dependencies = [] ∧
      w.execution_mode = ExecutionMode.SEQUENTIAL ∧
      w.parameters = [("url".data, stripTrailingPunct m)] ∧
      List.Forall₂ (fun s t =>
        (∀ k, s.step_id = stepIdStr k → t.step_id = stepIdStr (k + 1)) ∧
        (s.step_type = StepType.RETRIEVAL ∧ s.dependencies = [] →
          t.dependencies = [stepIdStr n]) ∧
        (¬(s.step_type = StepType.RETRIEVAL ∧ s.dependencies = []) →
          List.Forall₂ BumpRel s.dependencies t.dependencies)) steps ts := by
  rcases prepend_spec query steps n m hfind hids hdeps with ⟨ts, hp, hrel⟩
  exact ⟨webStepOf n (stripTrailingPunct m), ts, hp, rfl, rfl, rfl, rfl, rfl,
    hrel.imp (fun _ _ h => ⟨h.1, h.2.1, h.2.2.1⟩)⟩

theorem C1_witness :
    ∃ w ts,
      prepend_web_ingestion_step "Summarize https://site.example/page, please".data
        [⟨"step_0".data, StepType.RETRIEVAL, [], [], [], ExecutionMode.SEQUENTIAL,
          0, 0, 0, true, []⟩] 0
        = some (w :: ts, some (stepIdStr 0)) ∧
      w.step_type = StepType.WEB_INGESTION ∧
      w.parameters = [("url".data, "https://site.example/page".data)] := by
  obtain ⟨w, ts, h1, _, h3, _, _, h6, _⟩ :=
    C1_prepend_structure "Summarize https://site.example/page, please".data
      [⟨"step_0".data, StepType.RETRIEVAL, [], [], [], ExecutionMode.SEQUENTIAL,
        0, 0, 0, true, []⟩] 0
      "https://site.example/page,".data (by decide)
      (fun s hs => ⟨0, by rw [List.mem_singleton] at hs; rw [hs]; decide⟩)
      (fun s hs d hd => by
        rw [List.mem_singleton] at hs
        subst hs
        exact absurd hd (List.not_mem_nil d))
  exact ⟨w, ts, h1, h3, by rw [h6]; decide⟩

/-- C5: when a URL is found, renumbering is a pure relabeling: each output
step's id is its source id with the numeric suffix incremented, non-rewired
dependency lists are remapped pointwise through the same +1 relabeling, every
dependency edge of the input plan reappears as the correspondingly renumbered
edge of the output plan (no edge is removed), and all remaining fields —
description, parameters, execution mode, estimated time, estimated cost,
priority, required flag and metadata — are copied through unchanged. -/
theorem C5_pure_relabeling (query : List Char) (steps : List PlanStep)
    (n : Nat) (m : List Char) (hfind : findURL query = some m)
    (hids : ∀ s ∈ steps, ∃ k, s.step_id = stepIdStr k)
    (hdeps : ∀ s ∈ steps, ∀ d ∈ s.dependencies, ∃ k, d = stepIdStr k) :
    ∃ w ts, prepend_web_ingestion_step query steps n
        = some (w :: ts, some (stepIdStr n)) ∧
      List.Forall₂ (fun s t =>
        (∀ k, s.step_id = stepIdStr k → t.step_id = stepIdStr (k + 1)) ∧
        (¬(s.step_type = StepType.RETRIEVAL ∧ s.dependencies = []) →
          List.Forall₂ BumpRel s.dependencies t.dependencies) ∧
        t.step_type = s.step_type ∧ t.description = s.description ∧
        t.parameters = s.parameters ∧ t.execution_mode = s.execution_mode ∧
        t.estimated_time_ms = s.estimated_time_ms ∧
        t.estimated_cost = s.estimated_cost ∧ t.priority = s.priority ∧
        t.required = s.required ∧ t.metadata = s.metadata) steps ts ∧
      (∀ a b ka kb, dependsOn steps a b → a = stepIdStr ka → b = stepIdStr kb →
        dependsOn (w :: ts) (stepIdStr (ka + 1)) (stepIdStr (kb + 1))) := by
  rcases prepend_spec query steps n m hfind hids hdeps with ⟨ts, hp, hrel⟩
  refine ⟨webStepOf n (stripTrailingPunct m), ts, hp,
    hrel.imp (fun _ _ h => ⟨h.1, h.2.2.1, h.2.2.2⟩), ?_⟩
  intro a b ka kb hedge ha hb
  rcases hedge with ⟨s, hs, hsid, hbmem⟩
  have hsne : s.dependencies ≠ [] := fun he => by rw [he] at hbmem; exact List.not_mem_nil b hbmem
  rcases forall₂_exists_left hrel s hs with ⟨t, ht, hrelst⟩
  have htid : t.step_id = stepIdStr (ka + 1) := hrelst.1 ka (hsid.trans ha)
  have hdepsrel := hrelst.2.2.1 (fun hc => hsne hc.2)
  rcases forall₂_exists_left hdepsrel b hbmem with ⟨b', hb', hbb'⟩
  refine ⟨t, List.mem_cons_of_mem _ ht, htid, ?_⟩
  rw [← hbb' kb hb]
  exact hb'

theorem C5_witness :
    ∃ w ts,
      prepend_web_ingestion_step "see https://example.com/path.".data
        [⟨"step_7".data, StepType.SYNTHESIS, [], [], ["step_3".data],
          ExecutionMode.PARALLEL, 1, 2, 3, false, []⟩] 5
        = some (w :: ts, some (stepIdStr 5)) ∧
      dependsOn (w :: ts) (stepIdStr 8) (stepIdStr 4) := by
  obtain ⟨w, ts, h1, _, h3⟩ :=
    C5_pure_relabeling "see https://example.com/path.".data
      [⟨"step_7".data, StepType.SYNTHESIS, [], [], ["step_3".data],
        ExecutionMode.PARALLEL, 1, 2, 3, false, []⟩] 5
      "https://example.com/path.".data (by decide)
      (fun s hs => ⟨7, by rw [List.mem_singleton] at hs; rw [hs]; decide⟩)
      (fun s hs d hd => by
        rw [List.mem_singleton] at hs
        subst hs
        rw [List.mem_singleton] at hd
        exact ⟨3, by rw [hd]; decide⟩)
  refine ⟨w, ts, h1, ?_⟩
  exact h3 (stepIdStr 7) (stepIdStr 3) 7 3
    ⟨⟨"step_7".data, StepType.SYNTHESIS, [], [], ["step_3".data],
      ExecutionMode.PARALLEL, 1, 2, 3, false, []⟩,
      List.mem_singleton.mpr rfl, by decide, by decide⟩ rfl rfl

/-! ## Claim C2: invariants of the rewritten plan -/

theorem renumbered_step_deps (w : List Char) (s t : PlanStep)
    (hrel : RenumberRel w s t)
    (hdeps : ∀ d ∈ s.dependencies, ∃ k, d = stepIdStr k) :
    ∀ b ∈ t.dependencies,
      b = w ∨ ∃ d ∈ s.dependencies, ∃ kd, d = stepIdStr kd ∧ b = stepIdStr (kd + 1) := by
  intro b hb
  by_cases htrig : s.step_type = StepType.RETRIEVAL ∧ s.dependencies = []
  · left
    rw [hrel.2.1 htrig, List.mem_singleton] at hb
    exact hb
  · right
    rcases forall₂_exists_right (hrel.2.2.1 htrig) b hb with ⟨d, hd, hbd⟩
    rcases hdeps d hd with ⟨kd, rfl⟩
    exact ⟨stepIdStr kd, hd, kd, rfl, hbd kd rfl⟩

theorem renumbered_ids_nodup (w : List Char) :
    ∀ steps ts, List.Forall₂ (RenumberRel w) steps ts →
      (∀ s ∈ steps, ∃ k, s.step_id = stepIdStr k) →
      (planIds steps).Nodup → (planIds ts).Nodup := by
  intro steps ts h
  induction h with
  | nil => intro _ _; simp [planIds]
  | @cons s t steps' ts' hr htl ih =>
    intro hids hnodup
    simp only [planIds, List.map_cons, List.nodup_cons] at hnodup ⊢
    refine ⟨?_, ih (fun x hx => hids x (List.mem_cons_of_mem s hx)) hnodup.2⟩
    intro hmem
    rcases List.mem_map.mp hmem with ⟨t', ht', heq⟩
    rcases forall₂_exists_right htl t' ht' with ⟨s', hs', hrel'⟩
    rcases hids s (List.mem_cons_self s steps') with ⟨ks, hks⟩
    rcases hids s' (List.mem_cons_of_mem s hs') with ⟨ks', hks'⟩
    have h1 : t.step_id = stepIdStr (ks + 1) := hr.1 ks hks
    have h2 : t'.step_id = stepIdStr (ks' + 1) := hrel'.1 ks' hks'
    rw [h1, h2] at heq
    have : ks' = ks := by have := stepIdStr_inj heq; omega
    apply hnodup.1
    rw [hks, ← this, ← hks']
    exact List.mem_map.mpr ⟨s', hs', rfl⟩

/-- C2 counterexample input: a single RETRIEVAL step with id `step_5`. -/
def c2InStep : PlanStep :=
  ⟨"step_5".data, StepType.RETRIEVAL, [], [], [], ExecutionMode.SEQUENTIAL,
    0, 0, 0, true, []⟩

/-- The plan produced for the C2 counterexample: counter 6 mints the new id
`step_6`, and bumping `step_5` also yields `step_6`. -/
def c2Out : List PlanStep :=
  [webStepOf 6 "https://a.b".data,
    { c2InStep with step_id := stepIdStr 6, dependencies := [stepIdStr 6] }]

/-- C2 counterexample: the claim quantifies over every counter `n ≥ 0`, but for
the valid one-step plan `[step_5]` (unique ids, acyclic, closed) and counter
`n = 6`, the rewritten plan has the duplicate id `step_6` twice — and even a
self-loop `step_6 → step_6` — so neither uniqueness nor acyclicity holds. -/
theorem C2_counterexample :
    prepend_web_ingestion_step "see https://a.b".data [c2InStep] 6
      = some (c2Out, some (stepIdStr 6)) ∧
    ¬ (planIds c2Out).Nodup ∧
    ¬ Acyclic c2Out := by
  refine ⟨by decide, by decide, ?_⟩
  intro h
  exact h (stepIdStr 6) (Relation.TransGen.single
    ⟨{ c2InStep with step_id := stepIdStr 6, dependencies := [stepIdStr 6] },
      by decide, by decide, by decide⟩)

/-- C2 (amended): the claim as stated fails when the counter `n` equals some
input suffix + 1 (see `C2_counterexample`); amended with the single extra
hypothesis — forced by that counterexample — that no input step id has numeric
suffix `n - 1`, the invariants hold: for every plan with unique canonical ids,
acyclic and closed dependencies, and every query in which a URL is found, the
output has length `len(P) + 1`, its first step has id `step_<n>`, its ids are
unique, every referenced dependency id exists in the output plan, and the
dependency relation has no cycle. -/
theorem C2_amended_invariants (query : List Char) (steps : List PlanStep) (n : Nat)
    (m : List Char) (hfind : findURL query = some m)
    (hids : ∀ s ∈ steps, ∃ k, s.step_id = stepIdStr k)
    (hdeps : ∀ s ∈ steps, ∀ d ∈ s.dependencies, ∃ k, d = stepIdStr k)
    (hclosed : ∀ s ∈ steps, ∀ d ∈ s.dependencies, ∃ s', s' ∈ steps ∧ s'.step_id = d)
    (hnodup : (planIds steps).Nodup)
    (hacyc : Acyclic steps)
    (hfresh : ∀ s ∈ steps, ∀ k, s.step_id = stepIdStr k → k + 1 ≠ n) :
    ∃ out, prepend_web_ingestion_step query steps n = some (out, some (stepIdStr n)) ∧
      out.length = steps.length + 1 ∧
      (planIds out).head? = some (stepIdStr n) ∧
      (planIds out).Nodup ∧
      (∀ t ∈ out, ∀ d ∈ t.dependencies, ∃ t', t' ∈ out ∧ t'.step_id = d) ∧
      Acyclic out := by
  rcases prepend_spec query steps n m hfind hids hdeps with ⟨ts, hp, hrel⟩
  set w : PlanStep := webStepOf n (stripTrailingPunct m) with hw
  refine ⟨w :: ts, hp, ?_, ?_, ?_, ?_, ?_⟩
  · simp [hrel.length_eq]
  · simp [planIds, hw, webStepOf]
  · -- uniqueness of ids
    simp only [planIds, List.map_cons, List.nodup_cons]
    refine ⟨?_, renumbered_ids_nodup (stepIdStr n) steps ts hrel hids hnodup⟩
    intro hmem
    rcases List.mem_map.mp hmem with ⟨t, ht, heq⟩
    rcases forall₂_exists_right hrel t ht with ⟨s, hs, hrelst⟩
    rcases hids s hs with ⟨ks, hks⟩
    have h1 : t.step_id = stepIdStr (ks + 1) := hrelst.1 ks hks
    rw [h1] at heq
    exact hfresh s hs ks hks (stepIdStr_inj heq)
  · -- referential closure
    intro t ht d hd
    rcases List.mem_cons.mp ht with rfl | ht'
    · exact absurd hd (List.not_mem_nil d)
    · rcases forall₂_exists_right hrel t ht' with ⟨s, hs, hrelst⟩
      rcases renumbered_step_deps (stepIdStr n) s t hrelst (hdeps s hs) d hd with
        hdw | ⟨d₀, hd₀, kd, hd₀k, hdk⟩
      · exact ⟨w, List.mem_cons_self _ _, hdw.symm⟩
      · rcases hclosed s hs d₀ hd₀ with ⟨s', hs', hs'id⟩
        rcases forall₂_exists_left hrel s' hs' with ⟨t', ht', hrel'⟩
        refine ⟨t', List.mem_cons_of_mem _ ht', ?_⟩
        rw [hrel'.1 kd (hs'id.trans hd₀k), hdk]
  · -- acyclicity
    have outEdge : ∀ a b, dependsOn (w :: ts) a b →
        ∃ ks, (∃ s ∈ steps, s.step_id = stepIdStr ks) ∧ a = stepIdStr (ks + 1) ∧
          (b = stepIdStr n ∨ ∃ kd, b = stepIdStr (kd + 1) ∧
            dependsOn steps (stepIdStr ks) (stepIdStr kd)) := by
      intro a b hedge
      rcases hedge with ⟨t, ht, htid, hbmem⟩
      rcases List.mem_cons.mp ht with rfl | ht'
      · exact absurd hbmem (List.not_mem_nil b)
      · rcases forall₂_exists_right hrel t ht' with ⟨s, hs, hrelst⟩
        rcases hids s hs with ⟨ks, hks⟩
        refine ⟨ks, ⟨s, hs, hks⟩, by rw [← htid, hrelst.1 ks hks], ?_⟩
        rcases renumbered_step_deps (stepIdStr n) s t hrelst (hdeps s hs) b hbmem with
          hbw | ⟨d₀, hd₀, kd, hd₀k, hdk⟩
        · exact Or.inl hbw
        · exact Or.inr ⟨kd, hdk, s, hs, hks, hd₀k ▸ hd₀⟩
    have pull : ∀ x y, Relation.TransGen (dependsOn (w :: ts)) x y →
        ∀ ky, y = stepIdStr (ky + 1) → ky + 1 ≠ n →
          ∃ kx, x = stepIdStr (kx + 1) ∧ kx + 1 ≠ n ∧
            Relation.TransGen (dependsOn steps) (stepIdStr kx) (stepIdStr ky) := by
      intro x y hxy
      induction hxy with
      | single h' =>
        intro ky hy hkyn
        rcases outEdge _ _ h' with ⟨ks, ⟨s, hs, hsid⟩, hx, hb⟩
        have hksn : ks + 1 ≠ n := hfresh s hs ks hsid
        rcases hb with hbw | ⟨kd, hykd, hedge⟩
        · exact absurd (stepIdStr_inj (hy.symm.trans hbw)) hkyn
        · have hkd : kd = ky := by
            have := stepIdStr_inj (hy.symm.trans hykd); omega
          exact ⟨ks, hx, hksn, Relation.TransGen.single (hkd ▸ hedge)⟩
      | tail hxy' e ih =>
        intro ky hy hkyn
        rcases outEdge _ _ e with ⟨ks, ⟨s, hs, hsid⟩, hmid, hb⟩
        have hksn : ks + 1 ≠ n := hfresh s hs ks hsid
        rcases hb with hbw | ⟨kd, hykd, hedge⟩
        · exact absurd (stepIdStr_inj (hy.symm.trans hbw)) hkyn
        · have hkd : kd = ky := by
            have := stepIdStr_inj (hy.symm.trans hykd); omega
          rcases ih ks hmid hksn with ⟨kx, hxform, hkxn, htrans⟩
          exact ⟨kx, hxform, hkxn, htrans.tail (hkd ▸ hedge)⟩
    intro a ha
    have firstEdge : ∀ x y, Relation.TransGen (dependsOn (w :: ts)) x y →
        ∃ c, dependsOn (w :: ts) x c := by
      intro x y h
      induction h with
      | single h' => exact ⟨_, h'⟩
      | tail _ _ ih => exact ih
    rcases firstEdge a a ha with ⟨c, hac⟩
    rcases outEdge a c hac with ⟨ka, ⟨s, hs, hsid⟩, haf, _⟩
    have hkan : ka + 1 ≠ n := hfresh s hs ka hsid
    rcases pull a a ha ka haf hkan with ⟨kx, hxf, _, htrans⟩
    have hkx : kx = ka := by
      have := stepIdStr_inj (hxf.symm.trans haf); omega
    exact hacyc (stepIdStr ka) (hkx ▸ htrans)

theorem C2_witness :
    ∃ out,
      prepend_web_ingestion_step "Summarize https://site.example/page, please".data
        [⟨"step_0".data, StepType.RETRIEVAL, [], [], [], ExecutionMode.SEQUENTIAL,
          0, 0, 0, true, []⟩] 0
        = some (out, some (stepIdStr 0)) ∧
      out.length = 2 ∧ (planIds out).Nodup ∧ Acyclic out := by
  obtain ⟨out, h1, h2, _, h4, _, h6⟩ :=
    C2_amended_invariants "Summarize https://site.example/page, please".data
      [⟨"step_0".data, StepType.RETRIEVAL, [], [], [], ExecutionMode.SEQUENTIAL,
        0, 0, 0, true, []⟩] 0
      "https://site.example/page,".data (by decide)
      (fun s hs => ⟨0, by rw [List.mem_singleton] at hs; rw [hs]; decide⟩)
      (fun s hs d hd => by
        rw [List.mem_singleton] at hs
        subst hs
        exact absurd hd (List.not_mem_nil d))
      (fun s hs d hd => by
        rw [List.mem_singleton] at hs
        subst hs
        exact absurd hd (List.not_mem_nil d))
      (by decide)
      (by
        intro a h
        have noEdge : ∀ x y, ¬ dependsOn
            [(⟨"step_0".data, StepType.RETRIEVAL, [], [], [],
              ExecutionMode.SEQUENTIAL, 0, 0, 0, true, []⟩ : PlanStep)] x y := by
          rintro x y ⟨s, hs, _, hb⟩
          rw [List.mem_singleton] at hs
          subst hs
          exact absurd hb (List.not_mem_nil y)
        cases h with
        | single h' => exact noEdge _ _ h'
        | tail _ e => exact noEdge _ _ e)
      (fun s hs k hk => by
        rw [List.mem_singleton] at hs
        subst hs
        have h0 : stepIdStr 0 = stepIdStr k := by
          rw [← hk]; decide
        have := stepIdStr_inj h0
        omega)
  exact ⟨out, h1, h2, h4, h6⟩

/-! ## Claims about the orchestrator lifecycle (C3, C4, C8, C9) -/

/-- C8: a single `close()` never raises (the embedding returns a plain log:
every individual close sits in its own `try/except`), and for every failure
oracle it attempts exactly the closes of the owned handles, in source order —
ingestion sub-pipeline, then the retrieval-side Qdrant handle, then the
query-side and ingestion-side Neo4j handles, skipping precisely the graph
handles that were never constructed.  The log being independent of `fails`
is the isolation property: a failing close never prevents the later ones. -/
theorem C8_close_attempts_all_in_order (st : PipelineState) (fails : CloseCall → Bool) :
    closePipeline fails st =
      [CloseCall.storage, CloseCall.retrievalQdrant]
        ++ (if st.neo4j.isSome then [CloseCall.neo4jRetrieval] else [])
        ++ (if st.graph_ingestor.isSome then [CloseCall.neo4jIngestion] else []) :=
  closePipeline_eq_expected fails st

/-- A fully constructed orchestrator state (all graph handles present), as
produced by a failure-free construction. -/
def c3State : PipelineState :=
  ⟨some 0, true, some 1, 0, 1, 1, 1, false, 0⟩

/-- C3 counterexample: `close()` keeps no "already closed" flag and resets no
field, so a second call re-runs the whole sequence: across two calls every
owned handle receives two close calls that reach it (here counted with a
never-raising oracle, i.e. the calls' side effects are observable), refuting
"each owned handle receives at most one close call with observable side
effects". -/
theorem C3_counterexample :
    (closePipeline (fun _ => false) c3State
        ++ closePipeline (fun _ => false) c3State).count CloseCall.storage = 2 ∧
    (closePipeline (fun _ => false) c3State
        ++ closePipeline (fun _ => false) c3State).count CloseCall.retrievalQdrant = 2 ∧
    (closePipeline (fun _ => false) c3State
        ++ closePipeline (fun _ => false) c3State).count CloseCall.neo4jRetrieval = 2 ∧
    (closePipeline (fun _ => false) c3State
        ++ closePipeline (fun _ => false) c3State).count CloseCall.neo4jIngestion = 2 ∧
    ¬ ((closePipeline (fun _ => false) c3State
        ++ closePipeline (fun _ => false) c3State).count CloseCall.storage ≤ 1) := by
  refine ⟨by decide, by decide, by decide, by decide, by decide⟩

/-- C3 (amended): calling `close()` twice never raises, but the orchestrator
does not guard against double closing: the second call repeats the full close
sequence, so each present owned handle receives exactly one close call per
invocation (two across both calls) for every pair of failure oracles;
avoiding observable double-close effects is delegated to the handles' own
`close()` idempotence. -/
theorem C3_amended_double_close (st : PipelineState) (f1 f2 : CloseCall → Bool) :
    closePipeline f1 st ++ closePipeline f2 st
      = expectedCloseOrder st ++ expectedCloseOrder st := by
  rw [closePipeline_eq_expected f1 st, closePipeline_eq_expected f2 st]

theorem graphBlock_first_fail (gw : ℚ) (fails : CtorCall → Bool)
    (h0 : fails (CtorCall.neo4jManager 0) = true) :
    graphBlock gw fails = ⟨none, false, none, 0, []⟩ := by
  rw [graphBlock, if_pos h0]

theorem graphBlock_any_fail (gw : ℚ) (fails : CtorCall → Bool)
    (h : fails (CtorCall.neo4jManager 0) = true ∨
      fails CtorCall.graphQueryInterface = true ∨
      fails (CtorCall.neo4jManager 1) = true ∨
      fails CtorCall.graphIngestionManager = true) :
    (graphBlock gw fails).graph_ingestor = none ∧
      (graphBlock gw fails).eff_graph_weight = 0 := by
  rw [graphBlock]
  by_cases h0 : fails (CtorCall.neo4jManager 0) <;>
    by_cases hg : fails CtorCall.graphQueryInterface <;>
    by_cases h1 : fails (CtorCall.neo4jManager 1) <;>
    by_cases hgi : fails CtorCall.graphIngestionManager <;>
    simp_all

theorem initPipeline_ok (cfg : PipelineConfig) (fails : CtorCall → Bool)
    (hq0 : fails (CtorCall.qdrantManager 0) = false)
    (hq1 : fails (CtorCall.qdrantManager 1) = false) :
    initPipeline cfg fails = Except.ok
      { neo4j := (graphBlock cfg.graph_weight fails).neo4j
        graph_queries := (graphBlock cfg.graph_weight fails).graph_queries
        graph_ingestor := (graphBlock cfg.graph_weight fails).graph_ingestor
        storage_qdrant := 0
        retrieval_qdrant := 1
        retriever_vector_weight := cfg.vector_weight
        retriever_graph_weight := (graphBlock cfg.graph_weight fails).eff_graph_weight
        lexical_enabled := decide (0 < cfg.lexical_weight)
        lexical_weight := if 0 < cfg.lexical_weight then cfg.lexical_weight else 0 } := by
  rw [initPipeline]
  simp [hq0, hq1]

/-- C4 counterexample: the claim says a graph-store construction failure "for
any reason" leaves BOTH graph handles absent.  With the oracle that fails only
the second `Neo4jManager(config=neo4j_cfg)` call (e.g. a transient timeout —
one of the failure reasons the claim itself lists), construction completes
with the failure caught and the effective graph weight forced to zero and the
ingestion-side handle absent — but the query-side handle, assigned before the
raising call, remains set. -/
theorem C4_counterexample :
    (initPipeline ⟨1, 1, 0⟩
        (fun c => decide (c = CtorCall.neo4jManager 1))).toOption.map
      PipelineState.neo4j = some (some 0) ∧
    (initPipeline ⟨1, 1, 0⟩
        (fun c => decide (c = CtorCall.neo4jManager 1))).toOption.map
      PipelineState.graph_ingestor = some none ∧
    (initPipeline ⟨1, 1, 0⟩
        (fun c => decide (c = CtorCall.neo4jManager 1))).toOption.map
      PipelineState.retriever_graph_weight = some 0 := by
  refine ⟨by decide, by decide, by decide⟩

/-- C4 (amended): any failure inside the guarded graph block is caught and
never propagates — construction completes successfully whenever the (required)
Qdrant constructions succeed — the effective graph fusion weight passed to the
retriever is zero regardless of the configured weight, and the ingestion-side
graph handle is absent; both graph handles are absent whenever the failure
occurs at the first graph construction step (in particular whenever the graph
backend is unreachable, which fails every graph construction attempt). -/
theorem C4_amended_graph_degradation (cfg : PipelineConfig) (fails : CtorCall → Bool)
    (hgraphfail : fails (CtorCall.neo4jManager 0) = true ∨
      fails CtorCall.graphQueryInterface = true ∨
      fails (CtorCall.neo4jManager 1) = true ∨
      fails CtorCall.graphIngestionManager = true)
    (hq0 : fails (CtorCall.qdrantManager 0) = false)
    (hq1 : fails (CtorCall.qdrantManager 1) = false) :
    ∃ st, initPipeline cfg fails = Except.ok st ∧
      st.retriever_graph_weight = 0 ∧
      st.graph_ingestor = none ∧
      (fails (CtorCall.neo4jManager 0) = true →
        st.neo4j = none ∧ st.graph_queries = false) := by
  rcases graphBlock_any_fail cfg.graph_weight fails hgraphfail with ⟨hgi, hgw⟩
  refine ⟨_, initPipeline_ok cfg fails hq0 hq1, hgw, hgi, ?_⟩
  intro h0
  rw [graphBlock_first_fail cfg.graph_weight fails h0]
  exact ⟨rfl, rfl⟩

theorem C4_witness :
    ∃ st, initPipeline ⟨1, 1, 0⟩
        (fun c => decide (c = CtorCall.neo4jManager 0)) = Except.ok st ∧
      st.retriever_graph_weight = 0 ∧ st.neo4j = none ∧ st.graph_ingestor = none := by
  obtain ⟨st, h1, h2, h3, h4⟩ :=
    C4_amended_graph_degradation ⟨1, 1, 0⟩
      (fun c => decide (c = CtorCall.neo4jManager 0))
      (Or.inl (by decide)) (by decide) (by decide)
  exact ⟨st, h1, h2, (h4 (by decide)).1, h3⟩

/-- C9: when the (non-optional) vector-store handle construction fails — here
the first `QdrantManager(config=qdrant_cfg)` call raises while the graph
backend is healthy — construction fails and the error propagates (the
`Except.error`), as the claim requires; but the two Neo4j managers constructed
before the raising call are carried in the error as still-open connections:
`__init__` has no cleanup on this path and closes neither before propagating,
contradicting the claim's "every handle already constructed at that point is
closed rather than left open". -/
theorem C9_vector_failure_leaks_graph_handles :
    initPipeline ⟨1, 1, 0⟩ (fun c => decide (c = CtorCall.qdrantManager 0))
      = Except.error [BackendHandle.neo4jManager 0, BackendHandle.neo4jManager 1] := by
  rfl
